import Mathlib

/-!
Verification of the lexical front end and runtime value model of C-rs.

The development shallowly embeds the two source files:
* src/types/value.rs — the Value tagged union with its truthiness, ordering,
  multi-level equality and coercing arithmetic operators;
* src/lexer.rs — the tokenizer, including the string-interpolation sub-grammar.

Modelling conventions:
* Rust f64 numbers are modelled as exact rationals.  Every concrete number
  appearing in a theorem below is a small dyadic rational on which the f64
  computations performed by the source are exact, so the rational model agrees
  with the binary floating point one at all evaluated points.  All rational
  arithmetic is implemented on numerator/denominator form via Rat.divInt so
  that concrete values reduce inside the kernel; bridge lemmas below prove the
  implementations equal to the ordinary field operations on the rationals.
* Rust strings are modelled as lists of unicode scalar values (List Char).
  Byte-indexed operations of the source (str::len, byte slicing) are modelled
  by an explicit UTF-8 byte-length function.
* A Rust operation that can panic is modelled with an Option result, none
  standing for the panic.
-/

/-- Exact rational multiplication on numerator/denominator form; equals field
multiplication on the rationals (lemma qMul_eq below).  Models an f64 product
at points where that product is exact. -/
def qMul (a b : ℚ) : ℚ := Rat.divInt (a.num * b.num) (a.den * b.den)

/-- Exact rational subtraction on numerator/denominator form; equals field
subtraction on the rationals (lemma qSub_eq below). -/
def qSub (a b : ℚ) : ℚ := Rat.divInt (a.num * b.den - b.num * a.den) (a.den * b.den)

/-- Exact rational addition on numerator/denominator form; equals field
addition on the rationals (lemma qAdd_eq below). -/
def qAdd (a b : ℚ) : ℚ := Rat.divInt (a.num * b.den + b.num * a.den) (a.den * b.den)

/-- Exact rational division on numerator/denominator form; equals field
division on the rationals. -/
def qDiv (a b : ℚ) : ℚ := Rat.divInt (a.num * b.den) (a.den * b.num)

/-- Absolute value, models f64::abs. -/
def qAbs (a : ℚ) : ℚ := if a < 0 then -a else a

/-- Floor followed by the Rust `as usize` cast for the nonnegative values the
source applies it to (a negative floor saturates to 0, as the cast does). -/
def qFloorNat (a : ℚ) : ℕ := a.floor.toNat

theorem qMul_eq (a b : ℚ) : qMul a b = a * b := by
  rw [qMul, Rat.divInt_eq_div]
  push_cast
  rw [← div_mul_div_comm, Rat.num_div_den, Rat.num_div_den]

theorem qSub_eq (a b : ℚ) : qSub a b = a - b := by
  rw [qSub, Rat.divInt_eq_div]
  conv_rhs => rw [← Rat.num_div_den a, ← Rat.num_div_den b]
  rw [div_sub_div _ _ (by positivity) (by positivity)]
  push_cast
  ring_nf

theorem qAdd_eq (a b : ℚ) : qAdd a b = a + b := by
  rw [qAdd, Rat.divInt_eq_div]
  conv_rhs => rw [← Rat.num_div_den a, ← Rat.num_div_den b]
  rw [div_add_div _ _ (by positivity) (by positivity)]
  push_cast
  ring_nf

theorem qAbs_eq (a : ℚ) : qAbs a = |a| := by
  by_cases h : a < 0
  · rw [qAbs, if_pos h, abs_of_neg h]
  · rw [qAbs, if_neg h, abs_of_nonneg (not_lt.mp h)]

theorem ratFloor_eq (q : ℚ) : q.floor = ⌊q⌋ := by
  rw [Rat.floor_def, Rat.floor_def']

theorem qFloorNat_eq (q : ℚ) : qFloorNat q = ⌊q⌋.toNat := by
  rw [qFloorNat, ratFloor_eq]

/-- UTF-8 byte length of one unicode scalar value. -/
def utf8Len (c : Char) : ℕ :=
  if c.toNat < 0x80 then 1
  else if c.toNat < 0x800 then 2
  else if c.toNat < 0x10000 then 3
  else 4

/-- UTF-8 byte length of a string, models str::len. -/
def byteLen (s : List Char) : ℕ := (s.map utf8Len).sum

/-- Byte-indexed prefix slice, models the Rust expression str[0..n]: returns
the prefix whose UTF-8 encoding is exactly n bytes long, or none — the model
of the byte-slicing panic — when n is not a character boundary or exceeds the
string's byte length. -/
def byteSlice : List Char → ℕ → Option (List Char)
  | _, 0 => some []
  | [], _ + 1 => none
  | c :: rest, n + 1 =>
    if utf8Len c ≤ n + 1 then (byteSlice rest (n + 1 - utf8Len c)).map (c :: ·)
    else none

theorem utf8Len_ascii (c : Char) (h : c.toNat < 128) : utf8Len c = 1 := by
  simp [utf8Len, h]

theorem byteLen_ascii (s : List Char) (h : ∀ c ∈ s, c.toNat < 128) :
    byteLen s = s.length := by
  induction s with
  | nil => rfl
  | cons c rest ih =>
    have hc := utf8Len_ascii c (h c (by simp))
    have := ih (fun d hd => h d (by simp [hd]))
    simp [byteLen] at this ⊢
    omega

theorem byteSlice_ascii (s : List Char) (n : ℕ) (h : ∀ c ∈ s, c.toNat < 128)
    (hn : n ≤ s.length) : byteSlice s n = some (s.take n) := by
  induction s generalizing n with
  | nil =>
    obtain rfl : n = 0 := by simpa using hn
    rfl
  | cons c rest ih =>
    match n with
    | 0 => rfl
    | m + 1 =>
      have hc := utf8Len_ascii c (h c (by simp))
      have hrest := ih m (fun d hd => h d (List.mem_cons_of_mem _ hd)) (by simpa using hn)
      simp [byteSlice, hc, hrest]

/-- Boolean is the three-valued truth type of the language
(src/types/value.rs, enum Boolean, declaration order True, False, Maybe). -/
inductive Boolean where
  | True
  | False
  | Maybe
deriving DecidableEq, Repr

/-- Keyword is the reserved-word enumeration
(src/types/value.rs, enum Keyword, declaration order). -/
inductive Keyword where
  | Const
  | Delete
  | Eval
  | Function
  | If
  | Var
deriving DecidableEq, Repr

/-- Modelled from the spec: Pointer is the external indirection cell through
which Object entries are stored; this core only passes it around, so it is
modelled as an opaque handle. -/
abbrev Ptr := ℕ

/-- Modelled from the spec: Syntax is the external opaque AST node type stored
in a Function body; this core never inspects it, so it is modelled as an
opaque handle. -/
abbrev SynBody := ℕ

mutual
/-- Value is the six-variant runtime tagged union (src/types/value.rs, enum
Value, repr(C), declaration order Boolean, String, Number, Object, Function,
Keyword).  Numbers carry exact rationals (see the modelling conventions), an
Object carries its key-ordered entry list keyed by Value. -/
inductive Value where
  | Boolean (b : Boolean)
  | String (s : List Char)
  | Number (n : ℚ)
  | Object (es : Entries)
  | Function (params : List (List Char)) (body : SynBody)
  | Keyword (k : Keyword)

/-- Entries is the key-ordered entry sequence of an Object, modelling the
BTreeMap from Value keys to Pointer values. -/
inductive Entries where
  | nil
  | cons (k : Value) (p : Ptr) (rest : Entries)
end

/-- Default value: the empty Object (impl Default for Value). -/
def defaultValue : Value := .Object .nil

/-- Conversion From bool for Value via Boolean (impl From for Value). -/
def boolToValue (b : Bool) : Value := if b then .Boolean .True else .Boolean .False

/-- Truthiness of an Entries list being empty, models BTreeMap::is_empty. -/
def entriesIsEmpty : Entries → Bool
  | .nil => true
  | .cons _ _ _ => false

/-- Truthiness coercion (Value::bool in src/types/value.rs): Booleans pass
through; a Number at least 1 is True, at most 0 is False, otherwise Maybe;
String and Object are False exactly when empty; Function and Keyword are
Maybe. -/
def valueBool : Value → Boolean
  | .Boolean b => b
  | .Number n => if ((1 : ℕ) : ℚ) ≤ n then .True else if n ≤ ((0 : ℕ) : ℚ) then .False else .Maybe
  | .String s => if s.isEmpty then .False else .True
  | .Object es => if entriesIsEmpty es then .False else .True
  | _ => .Maybe

/-- Rank used by the variant-discriminant comparison of PartialOrd for Value:
the repr(C) discriminant, which is the declaration index. -/
def variantRank : Value → ℕ
  | .Boolean _ => 0
  | .String _ => 1
  | .Number _ => 2
  | .Object _ => 3
  | .Function _ _ => 4
  | .Keyword _ => 5

/-- Declaration index of a Boolean, the key of its derived Ord. -/
def boolRank : Boolean → ℕ
  | .True => 0
  | .False => 1
  | .Maybe => 2

/-- Declaration index of a Keyword, the key of its derived Ord. -/
def kwRank : Keyword → ℕ
  | .Const => 0
  | .Delete => 1
  | .Eval => 2
  | .Function => 3
  | .If => 4
  | .Var => 5

/-- Three-way comparison of naturals. -/
def cmpNat (a b : ℕ) : Ordering :=
  if a < b then .lt else if a = b then .eq else .gt

/-- Three-way comparison of rationals; models f64 partial_cmp, which is total
away from NaN (NaN has no rational counterpart). -/
def cmpQ (a b : ℚ) : Ordering :=
  if a < b then .lt else if a = b then .eq else .gt

/-- Lexicographic comparison of strings by scalar value, which agrees with the
byte-wise comparison of their UTF-8 encodings used by str::cmp. -/
def listCharCmp : List Char → List Char → Ordering
  | [], [] => .eq
  | [], _ :: _ => .lt
  | _ :: _, [] => .gt
  | x :: xs, y :: ys =>
    match cmpNat x.toNat y.toNat with
    | .eq => listCharCmp xs ys
    | o => o

/-- Comparison of Values (impl PartialOrd for Value): first the repr(C)
discriminants are compared; on a tie, Numbers, Strings, Booleans and Keywords
compare by their own orders, and the remaining same-variant cases hit the
todo! panic of the source, modelled as none. -/
def cmpValues (a b : Value) : Option Ordering :=
  match cmpNat (variantRank a) (variantRank b) with
  | .eq =>
    match a, b with
    | .Number l, .Number r => some (cmpQ l r)
    | .String l, .String r => some (listCharCmp l r)
    | .Boolean l, .Boolean r => some (cmpNat (boolRank l) (boolRank r))
    | .Keyword l, .Keyword r => some (cmpNat (kwRank l) (kwRank r))
    | _, _ => none
  | o => some o

/-- External collaborators and floating-point library routines, passed as
parameters.  The first three are modelled from the spec: ptrEq is Pointer
equality at a precision (dereference and compare, spec section 6), ptrText and
synText are the Display renderings of a Pointer and of a Syntax body.  lnTol
abstracts the f64 computation (a / b).ln().abs() < 0.1 of Value::eq, and
parseNum abstracts str::parse into f64; no claim below depends on either. -/
structure Externals where
  ptrEq : Ptr → Ptr → ℕ → Value
  ptrText : Ptr → List Char
  synText : SynBody → List Char
  lnTol : ℚ → ℚ → Bool
  parseNum : List Char → Option ℚ

/-- Trivial instantiation of the external parameters, used to evaluate the
model at concrete inputs. -/
def extTrivial : Externals :=
  { ptrEq := fun _ _ _ => defaultValue
    ptrText := fun _ => []
    synText := fun _ => []
    lnTol := fun _ _ => false
    parseNum := fun _ => none }

/-- Digit character for a value below 10. -/
def digitChar (d : ℕ) : Char := Char.ofNat (48 + d)

/-- Decimal digits of the fractional part num/den (num < den), by repeated
multiplication by 10 until the remainder vanishes; the fuel bound 1100 covers
every f64 value.  Together with displayNumber this models the Rust Display of
f64 on every value whose exact decimal expansion is its shortest round-trip
rendering, which holds for all numbers evaluated in this development. -/
def fracDigits : ℕ → ℕ → ℕ → List Char
  | 0, _, _ => []
  | fuel + 1, num, den =>
    if num = 0 then []
    else digitChar (num * 10 / den) :: fracDigits fuel (num * 10 % den) den

/-- Rendering of a Number (Display for Value, Number arm): sign, integer part,
and a dot followed by the fractional digits when the value is not integral. -/
def displayNumber (q : ℚ) : List Char :=
  (if q.num < 0 then ['-'] else []) ++ Nat.toDigits 10 (q.num.natAbs / q.den)
    ++ (if q.den = 1 then [] else '.' :: fracDigits 1100 (q.num.natAbs % q.den) q.den)

/-- Escaped form of one character inside a Rust debug-quoted string literal:
quote and backslash are escaped, the common control characters take their
short escapes, other control characters take a unicode escape, and everything
else is kept verbatim. -/
def escapeDebugChar (c : Char) : List Char :=
  if c = Char.ofNat 34 then [Char.ofNat 92, Char.ofNat 34]
  else if c = Char.ofNat 92 then [Char.ofNat 92, Char.ofNat 92]
  else if c = '\n' then [Char.ofNat 92, 'n']
  else if c = '\t' then [Char.ofNat 92, 't']
  else if c = '\r' then [Char.ofNat 92, 'r']
  else if c = Char.ofNat 0 then [Char.ofNat 92, '0']
  else if c.toNat < 32 ∨ c.toNat = 127 then
    [Char.ofNat 92, 'u', Char.ofNat 123] ++ Nat.toDigits 16 c.toNat ++ [Char.ofNat 125]
  else [c]

/-- Debug-quoted rendering of a string: the text wrapped in double quotes with
internal quotes, backslashes and control characters escaped; models the Rust
formatting of str with the debug formatter, as used by Display for Value on
the String variant. -/
def debugQuote (s : List Char) : List Char :=
  Char.ofNat 34 :: (s.map escapeDebugChar).flatten ++ [Char.ofNat 34]

/-- Rendering of a Boolean (Display for Boolean). -/
def boolText : Boolean → List Char
  | .True => "true".toList
  | .False => "false".toList
  | .Maybe => "maybe".toList

/-- Rendering of a Keyword (Display for Keyword). -/
def kwText : Keyword → List Char
  | .Const => "const".toList
  | .Var => "var".toList
  | .Delete => "delete".toList
  | .Function => "function".toList
  | .If => "if".toList
  | .Eval => "eval".toList

mutual
/-- Rendering of a Value (impl Display for Value): Booleans and Keywords by
their text, Strings debug-quoted, Numbers by displayNumber, an Object through
the debug_struct builder named object, and a Function as its debug-formatted
parameter list, an arrow, and the external rendering of its body. -/
def displayValue (E : Externals) : Value → List Char
  | .Boolean b => boolText b
  | .String s => debugQuote s
  | .Number n => displayNumber n
  | .Object es =>
    match displayFields E es with
    | [] => "object".toList
    | f :: fs =>
      "object \x7b ".toList ++ List.intercalate ", ".toList (f :: fs) ++ " \x7d".toList
  | .Function params body =>
    (Char.ofNat 91 :: List.intercalate ", ".toList (params.map debugQuote) ++ [Char.ofNat 93])
      ++ " -> ".toList ++ E.synText body
  | .Keyword k => kwText k

/-- Rendered fields of the object debug_struct: each entry renders its key by
displayValue and its Pointer value by the external Display, the latter then
being debug-quoted by the debug_struct field builder. -/
def displayFields (E : Externals) : Entries → List (List Char)
  | .nil => []
  | .cons k p rest =>
    (displayValue E k ++ ": ".toList ++ debugQuote (E.ptrText p)) :: displayFields E rest
end

/-- Numeric weight of a Boolean used by Add (False 0, Maybe one half, True 1). -/
def boolWeight (b : Boolean) : ℚ :=
  match b with
  | .False => ((0 : ℕ) : ℚ)
  | .Maybe => mkRat 1 2
  | .True => ((1 : ℕ) : ℚ)

/-- Addition (impl Add for Value): Number plus Number sums; a Boolean and a
Number combine commutatively by mapping the Boolean to its numeric weight; a
String on the left concatenates its text with the Display rendering of the
right operand whatever its variant; every other pairing yields the default
empty Object. -/
def addValue (E : Externals) : Value → Value → Value
  | .Number l, .Number r => .Number (qAdd l r)
  | .Boolean b, .Number n => .Number (qAdd (boolWeight b) n)
  | .Number n, .Boolean b => .Number (qAdd (boolWeight b) n)
  | .String l, rhs => .String (l ++ displayValue E rhs)
  | _, _ => defaultValue

/-- Subtraction (impl Sub for Value): Number minus Number only, else the
default empty Object. -/
def subValue : Value → Value → Value
  | .Number l, .Number r => .Number (qSub l r)
  | _, _ => defaultValue

/-- Truncation of a rational toward zero, models f64::trunc. -/
def qTrunc (q : ℚ) : ℤ := if q < 0 then -(qAbs q).floor else q.floor

/-- Sign test modelling f64::is_sign_negative on the rational model (the
negative zero and NaN of f64 have no rational counterpart). -/
def isNegSign (n : ℚ) : Bool := n < 0

/-- Multiplication (impl Mul for Value): Number times Number multiplies;
String times Number repeats the string floor(abs n) whole times, then — when
the truncated byte count of the fractional remainder times the byte length is
positive — appends the byte-indexed prefix slice of that many bytes (which
panics, modelled as none, off a character boundary), then reverses the whole
character sequence when the number has negative sign; every other pairing
yields the default empty Object. -/
def mulValue : Value → Value → Option Value
  | .Number l, .Number r => some (.Number (qMul l r))
  | .String s, .Number n =>
    let a := qAbs n
    let whole := qFloorNat a
    let rep := (List.replicate whole s).flatten
    let portion := qFloorNat (qMul (qSub a ((a.floor : ℤ) : ℚ)) ((byteLen s : ℕ) : ℚ))
    let buf? := if 0 < portion then (byteSlice s portion).map (rep ++ ·) else some rep
    buf?.map (fun buf => .String (if isNegSign n then buf.reverse else buf))
  | _, _ => some defaultValue

/-- Division (impl Div for Value): Number by Number unless the divisor is
exactly zero, in which case — like every other pairing — the default empty
Object results. -/
def divValue : Value → Value → Value
  | .Number l, .Number r => if r = ((0 : ℕ) : ℚ) then defaultValue else .Number (qDiv l r)
  | _, _ => defaultValue

/-- Remainder (impl Rem for Value): like division; the rational remainder
l - trunc(l / r) * r models the f64 remainder at exact points. -/
def remValue : Value → Value → Value
  | .Number l, .Number r =>
    if r = ((0 : ℕ) : ℚ) then defaultValue
    else .Number (qSub l (qMul ((qTrunc (qDiv l r) : ℤ) : ℚ) r))
  | _, _ => defaultValue

/-- Negation (impl Neg for Value): True and False flip, Maybe stays, a Number
negates, a String reverses character-wise, else the default empty Object. -/
def negValue : Value → Value
  | .Boolean .False => .Boolean .True
  | .Boolean .True => .Boolean .False
  | .Boolean .Maybe => .Boolean .Maybe
  | .Number n => .Number (-n)
  | .String s => .String s.reverse
  | _ => defaultValue

/-- Kleene conjunction on truthiness (impl BitAnd for Value). -/
def andValue (a b : Value) : Value :=
  match valueBool a, valueBool b with
  | .False, _ => boolToValue false
  | _, .False => boolToValue false
  | .True, .True => boolToValue true
  | _, _ => .Boolean .Maybe

/-- Kleene disjunction on truthiness (impl BitOr for Value). -/
def orValue (a b : Value) : Value :=
  match valueBool a, valueBool b with
  | .True, _ => boolToValue true
  | _, .True => boolToValue true
  | .False, .False => boolToValue false
  | _, _ => .Boolean .Maybe

/-- Existence test over Object entries, models Iterator::any. -/
def entriesAny : Entries → (Value → Ptr → Bool) → Bool
  | .nil, _ => false
  | .cons k p rest, f => f k p || entriesAny rest f

/-- Lookup in the key-ordered entry list, models BTreeMap::get under the key
comparison of cmpValues; a comparison the source would panic on (none) is
treated as a mismatch, which no claim exercises. -/
def entriesGet : Entries → Value → Option Ptr
  | .nil, _ => none
  | .cons k p rest, key => if cmpValues key k = some .eq then some p else entriesGet rest key

/-- Test whether a Value is the Boolean False, modelling the comparison of an
equality result against Value::from(false) in the Object branch of
Value::eq. -/
def isFalseValue : Value → Bool
  | .Boolean .False => true
  | _ => false

/-- Precision-1 boolean-coercion rule of Value::eq: when the left operand is a
Boolean the other operand's truthiness is compared against it; otherwise the
same with the right operand; the or-pattern of the source binds the left
alternative first and does not backtrack. -/
def boolCoerceHit (a b : Value) : Bool :=
  match a with
  | .Boolean bb => valueBool b == bb
  | _ =>
    match b with
    | .Boolean bb => valueBool a == bb
    | _ => false

/-- ASCII lowercasing followed by whitespace trimming of both ends, modelling
the to_lowercase().trim() comparison of Value::eq at precision 1 (full unicode
lowercasing is approximated ASCII-only; no claim exercises this branch). -/
def lowTrim (s : List Char) : List Char :=
  (((s.map Char.toLower).dropWhile Char.isWhitespace).reverse.dropWhile Char.isWhitespace).reverse

/-- String-against-Number comparison of Value::eq: parse the string as a
number, unparsable strings are unequal, otherwise exact equality or the
precision-1 logarithmic tolerance. -/
def parseSideCmp (E : Externals) (s : List Char) (num : ℚ) (p : ℕ) : Value :=
  match E.parseNum s with
  | none => boolToValue false
  | some sp => boolToValue (num == sp || (p == 1 && E.lnTol num sp))

/-- Fallback type-directed comparison of Value::eq, reached when none of the
earlier precision rules decided. -/
def eqFallback (E : Externals) (a b : Value) (p : ℕ) : Value :=
  match a, b with
  | .Number l, .Number r => boolToValue (l == r || (p == 1 && E.lnTol l r))
  | .String l, .String r => boolToValue (l == r)
  | .Keyword l, .Keyword r => boolToValue (l == r)
  | .String s, .Number num => parseSideCmp E s num p
  | .Number num, .String s => parseSideCmp E s num p
  | .Object l, .Object r =>
    boolToValue
      (!(entriesAny l fun k v =>
          match entriesGet r k with
          | none => true
          | some rv => isFalseValue (E.ptrEq rv v p))
        && !(entriesAny r fun k _ => (entriesGet l k).isNone))
  | _, _ => boolToValue false

/-- Multi-level equality (Value::eq in src/types/value.rs), evaluated in the
source's priority order: the global falsy floor at any precision up to 2, the
precision-1 boolean coercion, exact textual equality at precision 2, the
lowercased-trimmed textual rule at precision 1, and finally the type-directed
fallback. -/
def valueEq (E : Externals) (a b : Value) (p : ℕ) : Value :=
  if decide (p ≤ 2) && (valueBool a == Boolean.False) && (valueBool b == Boolean.False) then
    .Boolean .True
  else if p == 1 && boolCoerceHit a b then .Boolean .True
  else if p == 2 then boolToValue (displayValue E a == displayValue E b)
  else if p == 1 && lowTrim (displayValue E a) == lowTrim (displayValue E b) then .Boolean .True
  else eqFallback E a b p

/-- Double quote character. -/
def quoteCh : Char := Char.ofNat 34

/-- Single quote character. -/
def apostCh : Char := Char.ofNat 39

/-- Backquote character. -/
def backqCh : Char := Char.ofNat 96

/-- Backslash character. -/
def bslashCh : Char := Char.ofNat 92

/-- Left curly brace character. -/
def lbraceCh : Char := Char.ofNat 123

/-- Right curly brace character. -/
def rbraceCh : Char := Char.ofNat 125

/-- StringSegment is one piece of a lexed string literal: literal text, an
identifier reference to interpolate, or the two-part Escudo directive
(declared with Token outside src, modelled from the spec, section 3). -/
inductive StringSegment where
  | String (s : List Char)
  | Ident (s : List Char)
  | Escudo (l r : List Char)
deriving DecidableEq, Repr

/-- Token is one lexical unit (declared outside src, modelled from the spec,
section 3, with the constructor set and count argument types taken from their
uses in src/lexer.rs; the count of the run-length comparison operators is a
u8 by the signature of count_char, modelled as the count modulo 256 with the
release-build wrap-around semantics). -/
inductive Token where
  | LSquirrely
  | RSquirrely
  | LParen
  | RParen
  | LSquare
  | RSquare
  | Semicolon
  | Colon
  | Dot
  | Comma
  | And
  | Or
  | Plus
  | PlusEq
  | PlusPlus
  | Tack
  | TackEq
  | Arrow
  | TackTack
  | Star
  | StarEq
  | Slash
  | SlashEq
  | Percent
  | PercentEq
  | LCaret
  | LCaretEq
  | RCaret
  | RCaretEq
  | String (segs : List StringSegment)
  | Equal (count : ℕ)
  | Bang (count : ℕ)
  | Question (count : ℕ)
  | Space (weight : ℕ)
  | Ident (s : List Char)
deriving DecidableEq, Repr

/-- Currency markers that open an interpolation when prefixed to a brace
group (src/lexer.rs line 35). -/
def isCurrencyLead (c : Char) : Bool := c = '$' || c = '£' || c = '¥'

/-- Currency markers that close a bare brace group into an identifier
reference (src/lexer.rs line 61). -/
def isCurrencyTrail (c : Char) : Bool := c = '€' || c = '円' || c = '₽'

/-- Unicode White_Space code points, the character class of Rust
char::is_whitespace. -/
def rustIsWhitespace (c : Char) : Bool :=
  c.toNat ∈ [0x09, 0x0A, 0x0B, 0x0C, 0x0D, 0x20, 0x85, 0xA0, 0x1680,
    0x2000, 0x2001, 0x2002, 0x2003, 0x2004, 0x2005, 0x2006, 0x2007, 0x2008,
    0x2009, 0x200A, 0x2028, 0x2029, 0x202F, 0x205F, 0x3000]

/-- Characters with a dedicated arm in inner_tokenize; a single character
re-dispatched in isolation yields an Ident token exactly when it is neither
in this class nor whitespace, which is how the identifier loop of the source
decides whether to absorb the next character. -/
def isSpecialStart (c : Char) : Bool :=
  c = lbraceCh || c = rbraceCh || c = '(' || c = ')' || c = '[' || c = ']' ||
  c = ';' || c = ':' || c = '.' || c = ',' || c = '&' || c = '|' ||
  c = '+' || c = '-' || c = '*' || c = '/' || c = '%' || c = '<' || c = '>' ||
  c = quoteCh || c = apostCh || c = backqCh || c = '«' || c = '»' || c = '„' ||
  c = '=' || c = '!' || c = '?'

/-- Identifier continuation class: the recursive single-character re-dispatch
of the source (src/lexer.rs lines 161-170) keeps absorbing exactly the
characters that are neither special starts nor whitespace. -/
def identChar (c : Char) : Bool := !(isSpecialStart c || rustIsWhitespace c)

/-- Collects characters up to and including the next right brace; the first
component is the collected body, the second is some remainder when the brace
was found and none when the input ended first.  Models the inner brace-scan
loops of lex_string. -/
def splitAtRBrace : List Char → List Char × Option (List Char)
  | [] => ([], none)
  | c :: rest =>
    if c = rbraceCh then ([], some rest)
    else
      let (body, rem) := splitAtRBrace rest
      (c :: body, rem)

/-- Splitting on a separator character, models str::split: the list of pieces
between occurrences of the separator (always nonempty, with empty pieces kept). -/
def splitOnChar (sep : Char) : List Char → List (List Char)
  | [] => [[]]
  | c :: rest =>
    match splitOnChar sep rest with
    | [] => if c = sep then [[], []] else [[c]]
    | piece :: pieces =>
      if c = sep then [] :: piece :: pieces else (c :: piece) :: pieces

/-- Flushes the pending literal buffer as a String segment when it is
nonempty (the take-and-push pattern of lex_string). -/
def flushStr (outer : List StringSegment) (sbuf : List Char) : List StringSegment :=
  if sbuf.isEmpty then outer else outer ++ [.String sbuf]

/-- Outcome of one step of the string-body scanner: the token is finished
with a remainder, the scan fails, or it continues with a new input remainder,
segment list and pending buffer. -/
inductive LexStep where
  | finish (tok : Token) (rest : List Char)
  | fail (msg : List Char)
  | next (rest : List Char) (outer : List StringSegment) (sbuf : List Char)
deriving DecidableEq, Repr

/-- One step of the string-body scanner (the loop body of lex_string in
src/lexer.rs) on the consumed character c, the remaining input, the segments
already produced and the pending literal buffer.  The end delimiter finishes
the token; a currency lead directly followed by a left brace flushes the
pending text and collects an identifier reference up to the right brace (at
end of input the collected text is left in the pending buffer instead); a
bare left brace collects a candidate up to the right brace and decides by the
following character: a trailing currency marker makes the candidate an
identifier reference, an internal dollar turns it into the Escudo segment
built from the first two pieces of the dollar-split (without flushing the
pending text), and otherwise the candidate rejoins the pending text verbatim
with braces; a backslash copies itself and the following character, failing
with the unterminated-input error when none remains; any other character
joins the pending text. -/
def lexStringStep (endc c : Char) (rest : List Char) (outer : List StringSegment)
    (sbuf : List Char) : LexStep :=
  if c = endc then .finish (.String (flushStr outer sbuf)) rest
  else if isCurrencyLead c && rest.head? = some lbraceCh then
    let outer1 := flushStr outer sbuf
    let pr := splitAtRBrace rest.tail
    match pr.2 with
    | some r => .next r (if pr.1.isEmpty then outer1 else outer1 ++ [.Ident pr.1]) []
    | none => .next [] outer1 pr.1
  else if c = lbraceCh then
    let pr := splitAtRBrace rest
    let body := pr.1
    match pr.2.getD [] with
    | d :: r2 =>
      if isCurrencyTrail d then .next r2 (flushStr outer sbuf ++ [.Ident body]) []
      else if body.contains '$' then
        .next (d :: r2)
          (outer ++ [.Escudo ((splitOnChar '$' body).getD 0 []) ((splitOnChar '$' body).getD 1 [])])
          sbuf
      else .next (d :: r2) outer (sbuf ++ lbraceCh :: body ++ [rbraceCh])
    | [] =>
      if body.contains '$' then
        .next []
          (outer ++ [.Escudo ((splitOnChar '$' body).getD 0 []) ((splitOnChar '$' body).getD 1 [])])
          sbuf
      else .next [] outer (sbuf ++ lbraceCh :: body ++ [rbraceCh])
  else if c = bslashCh then
    match rest with
    | [] => .fail "Unexpected end of file".toList
    | d :: rest2 => .next rest2 outer (sbuf ++ [c, d])
  else .next rest outer (sbuf ++ [c])

/-- String-body scanner (lex_string in src/lexer.rs): iterates lexStringStep,
finishing with the String token of the flushed segments when the input ends.
The scanner is fuelled so that every concrete run reduces in the kernel; the
fuel is decremented once per consumed leading character and every step
consumes at least one, so any fuel above the input length never runs out. -/
def lexStringGo (endc : Char) : ℕ → List Char → List StringSegment → List Char →
    Except (List Char) (Token × List Char)
  | 0, _, _, _ => .error "out of fuel".toList
  | _ + 1, [], outer, sbuf => .ok (.String (flushStr outer sbuf), [])
  | fuel + 1, c :: rest, outer, sbuf =>
    match lexStringStep endc c rest outer sbuf with
    | .finish tok rest2 => .ok (tok, rest2)
    | .fail msg => .error msg
    | .next rest2 outer2 sbuf2 => lexStringGo endc fuel rest2 outer2 sbuf2

/-- Greedy run counter (count_char in src/lexer.rs): counts the leading run of
the given character starting from an initial count; the count is a u8, so the
increment wraps modulo 256 (release-build semantics; a debug build would
abort at 256). -/
def countChar (tok : Char) : ℕ → List Char → ℕ × List Char
  | count, [] => (count, [])
  | count, c :: rest =>
    if c = tok then countChar tok ((count + 1) % 256) rest else (count, c :: rest)

/-- Whitespace-run scanner (src/lexer.rs lines 146-158): having consumed one
whitespace character for an initial weight of 1, adds 3 for every further
newline and 1 for every other further whitespace character. -/
def lexSpace : ℕ → List Char → ℕ × List Char
  | count, [] => (count, [])
  | count, c :: rest =>
    if rustIsWhitespace c then lexSpace (count + (if c = '\n' then 3 else 1)) rest
    else (count, c :: rest)

/-- Identifier scanner (src/lexer.rs lines 161-170): absorbs identifier
continuation characters. -/
def lexIdent : List Char → List Char → List Char × List Char
  | acc, [] => (acc, [])
  | acc, c :: rest =>
    if identChar c then lexIdent (acc ++ [c]) rest else (acc, c :: rest)

/-- Single-token scanner (inner_tokenize in src/lexer.rs) on the already
consumed first character and the remaining input; returns the token and the
unconsumed remainder.  The fuel is threaded to the string-body scanner only. -/
def innerTokenize (fuel : ℕ) (c : Char) (rest : List Char) :
    Except (List Char) (Token × List Char) :=
  if c = lbraceCh then .ok (.LSquirrely, rest)
  else if c = rbraceCh then .ok (.RSquirrely, rest)
  else if c = '(' then .ok (.LParen, rest)
  else if c = ')' then .ok (.RParen, rest)
  else if c = '[' then .ok (.LSquare, rest)
  else if c = ']' then .ok (.RSquare, rest)
  else if c = ';' then .ok (.Semicolon, rest)
  else if c = ':' then .ok (.Colon, rest)
  else if c = '.' then .ok (.Dot, rest)
  else if c = ',' then .ok (.Comma, rest)
  else if c = '&' then .ok (.And, rest)
  else if c = '|' then .ok (.Or, rest)
  else if c = '+' then
    match rest with
    | '=' :: r => .ok (.PlusEq, r)
    | '+' :: r => .ok (.PlusPlus, r)
    | _ => .ok (.Plus, rest)
  else if c = '-' then
    match rest with
    | '=' :: r => .ok (.TackEq, r)
    | '>' :: r => .ok (.Arrow, r)
    | '-' :: r => .ok (.TackTack, r)
    | _ => .ok (.Tack, rest)
  else if c = '*' then
    match rest with
    | '=' :: r => .ok (.StarEq, r)
    | _ => .ok (.Star, rest)
  else if c = '/' then
    match rest with
    | '=' :: r => .ok (.SlashEq, r)
    | _ => .ok (.Slash, rest)
  else if c = '%' then
    match rest with
    | '=' :: r => .ok (.PercentEq, r)
    | _ => .ok (.Percent, rest)
  else if c = '<' then
    match rest with
    | '=' :: r => .ok (.LCaretEq, r)
    | _ => .ok (.LCaret, rest)
  else if c = '>' then
    match rest with
    | '=' :: r => .ok (.RCaretEq, r)
    | _ => .ok (.RCaret, rest)
  else if c = quoteCh then lexStringGo quoteCh fuel rest [] []
  else if c = apostCh then lexStringGo apostCh fuel rest [] []
  else if c = backqCh then lexStringGo backqCh fuel rest [] []
  else if c = '«' then lexStringGo '»' fuel rest [] []
  else if c = '»' then lexStringGo '«' fuel rest [] []
  else if c = '„' then lexStringGo '“' fuel rest [] []
  else if c = '=' then
    let (n, r) := countChar '=' 1 rest
    .ok (.Equal n, r)
  else if c = '!' then
    let (n, r) := countChar '!' 1 rest
    .ok (.Bang n, r)
  else if c = '?' then
    let (n, r) := countChar '?' 1 rest
    .ok (.Question n, r)
  else if rustIsWhitespace c then
    let (n, r) := lexSpace 1 rest
    .ok (.Space n, r)
  else
    let (id, r) := lexIdent [c] rest
    .ok (.Ident id, r)

/-- Driver loop of tokenize: while input remains, scan one token and push it;
fuelled like the string scanner. -/
def tokenizeGo : ℕ → List Char → Except (List Char) (List Token)
  | 0, _ => .error "out of fuel".toList
  | _ + 1, [] => .ok []
  | fuel + 1, c :: rest =>
    match innerTokenize fuel c rest with
    | .error e => .error e
    | .ok (tok, rest2) =>
      match tokenizeGo fuel rest2 with
      | .error e => .error e
      | .ok toks => .ok (tok :: toks)

/-- Entry point (tokenize in src/lexer.rs): scans the whole input into a token
stream, or fails with the LexError message.  The initial fuel exceeds the
input length, and every scanning step consumes at least one character per
fuel unit, so the fuel never runs out on the paths below. -/
def tokenize (source : List Char) : Except (List Char) (List Token) :=
  tokenizeGo (source.length + 1) source

theorem cmpNat_eq_iff (a b : ℕ) : cmpNat a b = .eq ↔ a = b := by
  rw [cmpNat]
  split_ifs with h1 h2
  · simp
    omega
  · simp [h2]
  · simp
    omega

theorem flushStr_nil (outer : List StringSegment) : flushStr outer [] = outer := by
  simp [flushStr]

/-- C2: the claim that every arithmetic operator on Values is total, in
particular String times Number for every string including multi-byte text, is
contradicted by the code: the fractional-part slice is byte-indexed, so
multiplying the one-character string with the two-byte character é by 1.5
slices at byte offset 1, which is inside the character and panics (the none
of the model). -/
theorem claim2_mulPanicsOffBoundary :
    mulValue (.String ['é']) (.Number (mkRat 3 2)) = none := rfl

/-- C3 counterexample: the source truncates the fractional slice length with
an `as usize` cast instead of rounding, so "abc" times minus 1.5 repeats once,
appends the one-byte prefix "a" (not the claimed two), and reverses to "acba",
not the "bacba" the claim derives by rounding. -/
theorem claim3_cex :
    mulValue (.String ['a','b','c']) (.Number (mkRat (-3) 2)) = some (.String ['a','c','b','a'])
    ∧ (['a','c','b','a'] : List Char) ≠ ['b','a','c','b','a'] := ⟨rfl, by decide⟩

/-- C3 as amended: for an ASCII string s and any number n, s times n repeats s
floor of the absolute value many times, appends the prefix of s of length the
truncation (not the rounding) of the fractional part times the length of s,
and reverses the whole result when n is negative.  Multi-byte strings are
excluded because the byte-indexed slice can panic on them (see C2). -/
theorem claim3_stringMulTruncates (s : List Char) (n : ℚ) (h : ∀ c ∈ s, c.toNat < 128) :
    mulValue (.String s) (.Number n) = some (.String (
      let L := (List.replicate ⌊|n|⌋.toNat s).flatten
        ++ s.take (⌊Int.fract |n| * ((s.length : ℕ) : ℚ)⌋).toNat
      if n < 0 then L.reverse else L)) := by
  have hbl : byteLen s = s.length := byteLen_ascii s h
  have hfr1 : Int.fract |n| ≤ 1 := le_of_lt (Int.fract_lt_one _)
  have hmul : Int.fract |n| * ((s.length : ℕ) : ℚ) ≤ ((s.length : ℕ) : ℚ) := by
    calc Int.fract |n| * ((s.length : ℕ) : ℚ) ≤ 1 * ((s.length : ℕ) : ℚ) :=
          mul_le_mul_of_nonneg_right hfr1 (by positivity)
      _ = ((s.length : ℕ) : ℚ) := one_mul _
  have hible : ⌊Int.fract |n| * ((s.length : ℕ) : ℚ)⌋ ≤ (s.length : ℤ) := by
    calc ⌊Int.fract |n| * ((s.length : ℕ) : ℚ)⌋ ≤ ⌊((s.length : ℕ) : ℚ)⌋ :=
          Int.floor_le_floor hmul
      _ = (s.length : ℤ) := Int.floor_natCast _
  have hple : (⌊Int.fract |n| * ((s.length : ℕ) : ℚ)⌋).toNat ≤ s.length := by omega
  rw [mulValue]
  have hq : qFloorNat (qMul (qSub (qAbs n) (((qAbs n).floor : ℤ) : ℚ)) ((byteLen s : ℕ) : ℚ))
      = (⌊Int.fract |n| * ((s.length : ℕ) : ℚ)⌋).toNat := by
    rw [qFloorNat_eq, qMul_eq, qSub_eq, qAbs_eq, ratFloor_eq, hbl]
    rw [Int.self_sub_floor]
  have hw : qFloorNat (qAbs n) = ⌊|n|⌋.toNat := by rw [qFloorNat_eq, qAbs_eq]
  simp only [hq, hw]
  by_cases hpor : 0 < (⌊Int.fract |n| * ((s.length : ℕ) : ℚ)⌋).toNat
  · rw [if_pos hpor, byteSlice_ascii s _ h hple]
    simp [isNegSign, qAbs_eq]
  · rw [if_neg hpor]
    have h0 : (⌊Int.fract |n| * ((s.length : ℕ) : ℚ)⌋).toNat = 0 := by omega
    simp [isNegSign, qAbs_eq, h0]

/-- C3 witness: the amended statement applied to the non-palindromic case of
the claim, the string abc times minus 1.5. -/
theorem claim3_witness :
    (∀ c ∈ (['a','b','c'] : List Char), c.toNat < 128)
    ∧ mulValue (.String ['a','b','c']) (.Number (mkRat (-3) 2)) = some (.String (
        let L := (List.replicate ⌊|mkRat (-3) 2|⌋.toNat (['a','b','c'] : List Char)).flatten
          ++ (['a','b','c'] : List Char).take
              (⌊Int.fract |mkRat (-3) 2| * (((['a','b','c'] : List Char).length : ℕ) : ℚ)⌋).toNat
        if mkRat (-3) 2 < 0 then L.reverse else L)) :=
  ⟨by decide, claim3_stringMulTruncates ['a','b','c'] (mkRat (-3) 2) (by decide)⟩

/-- C4 counterexample: the empty String plus the Number 5 is decided by the
String-on-the-left concatenation arm, producing the String 5, which is not the
default empty Object the claim expects. -/
theorem claim4_cex :
    addValue extTrivial (.String []) (.Number ((5 : ℕ) : ℚ)) = .String ['5']
    ∧ Value.String ['5'] ≠ defaultValue :=
  ⟨rfl, fun h => nomatch h⟩

/-- C4 as amended: the empty String plus the Number 5 evaluates to the String
5 under the String-left concatenation rule, for every instantiation of the
external display parameters; it is Number plus String, not String plus
Number, that falls to the empty-Object default. -/
theorem claim4_amended (E : Externals) :
    addValue E (.String []) (.Number ((5 : ℕ) : ℚ)) = .String ['5']
    ∧ addValue E (.Number ((5 : ℕ) : ℚ)) (.String []) = defaultValue :=
  ⟨rfl, rfl⟩

/-- C8: whenever both operands have truthiness False, eq returns the Boolean
True at every precision up to 2, independent of the operand variants and of
all external parameters. -/
theorem claim8_falsyFloor (E : Externals) (a b : Value) (p : ℕ) (hp : p ≤ 2)
    (ha : valueBool a = Boolean.False) (hb : valueBool b = Boolean.False) :
    valueEq E a b p = Value.Boolean Boolean.True := by
  simp [valueEq, ha, hb, hp]

/-- C8 witness: a nonpositive Number and the empty String are falsy, so they
compare equal at precision 1. -/
theorem claim8_witness :
    ((1 : ℕ) ≤ 2 ∧ valueBool (Value.Number (-((1 : ℕ) : ℚ))) = Boolean.False
      ∧ valueBool (Value.String []) = Boolean.False)
    ∧ valueEq extTrivial (Value.Number (-((1 : ℕ) : ℚ))) (Value.String []) 1
        = Value.Boolean Boolean.True :=
  ⟨⟨by decide, rfl, rfl⟩,
    claim8_falsyFloor extTrivial (Value.Number (-((1 : ℕ) : ℚ))) (Value.String []) 1
      (by decide) rfl rfl⟩

/-- C9: Values of different variants compare by the fixed repr(C) rank alone,
whose order is Boolean, String, Number, Object, Function, Keyword; and the
same-variant Boolean and Keyword orders are their declaration orders, True
before False before Maybe and Const, Delete, Eval, Function, If, Var. -/
theorem claim9_crossTypeOrder :
    (∀ a b : Value, variantRank a ≠ variantRank b →
      cmpValues a b = some (cmpNat (variantRank a) (variantRank b)))
    ∧ cmpValues (.Boolean .Maybe) (.String []) = some .lt
    ∧ cmpValues (.String []) (.Number ((0 : ℕ) : ℚ)) = some .lt
    ∧ cmpValues (.Number ((0 : ℕ) : ℚ)) (.Object .nil) = some .lt
    ∧ cmpValues (.Object .nil) (.Function [] 0) = some .lt
    ∧ cmpValues (.Function [] 0) (.Keyword .Const) = some .lt
    ∧ cmpValues (.Boolean .True) (.Boolean .False) = some .lt
    ∧ cmpValues (.Boolean .False) (.Boolean .Maybe) = some .lt
    ∧ cmpValues (.Keyword .Const) (.Keyword .Delete) = some .lt
    ∧ cmpValues (.Keyword .Delete) (.Keyword .Eval) = some .lt
    ∧ cmpValues (.Keyword .Eval) (.Keyword .Function) = some .lt
    ∧ cmpValues (.Keyword .Function) (.Keyword .If) = some .lt
    ∧ cmpValues (.Keyword .If) (.Keyword .Var) = some .lt := by
  refine ⟨?_, rfl, rfl, rfl, rfl, rfl, rfl, rfl, rfl, rfl, rfl, rfl, rfl⟩
  intro a b h
  rcases hc : cmpNat (variantRank a) (variantRank b) with _ | _ | _
  case eq => exact absurd ((cmpNat_eq_iff _ _).mp hc) h
  all_goals rw [cmpValues, hc]
  all_goals intro l r ha hb
  all_goals subst ha
  all_goals subst hb
  all_goals simp [variantRank, cmpNat] at hc

/-- C9 witness: a Boolean and a Keyword have distinct ranks and compare by
rank. -/
theorem claim9_witness :
    variantRank (Value.Boolean .True) ≠ variantRank (Value.Keyword .Const)
    ∧ cmpValues (Value.Boolean .True) (Value.Keyword .Const)
        = some (cmpNat (variantRank (Value.Boolean .True)) (variantRank (Value.Keyword .Const))) :=
  ⟨by decide, claim9_crossTypeOrder.1 (Value.Boolean .True) (Value.Keyword .Const) (by decide)⟩

/-- C10: adding two Strings concatenates the left text with the debug-quoted
rendering of the right operand, the right text wrapped in double quotes with
quotes and backslashes escaped; in particular the String a plus the String b
is the five-character String a-quote-b-quote. -/
theorem claim10_stringAddQuotes :
    (∀ (E : Externals) (a b : List Char),
      addValue E (.String a) (.String b) = .String (a ++ debugQuote b))
    ∧ addValue extTrivial (.String ['a']) (.String ['b'])
        = .String ['a', Char.ofNat 34, 'b', Char.ofNat 34] :=
  ⟨fun _ _ _ => rfl, rfl⟩

theorem lexStringGo_stepNext (endc c : Char) (rest : List Char) (outer : List StringSegment)
    (sbuf : List Char) (f : ℕ) {r2 : List Char} {o2 : List StringSegment} {s2 : List Char}
    (h : lexStringStep endc c rest outer sbuf = .next r2 o2 s2) :
    lexStringGo endc (f + 1) (c :: rest) outer sbuf = lexStringGo endc f r2 o2 s2 := by
  rw [lexStringGo, h]

theorem lexStringGo_stepFinish (endc c : Char) (rest : List Char) (outer : List StringSegment)
    (sbuf : List Char) (f : ℕ) {tok : Token} {rest2 : List Char}
    (h : lexStringStep endc c rest outer sbuf = .finish tok rest2) :
    lexStringGo endc (f + 1) (c :: rest) outer sbuf = .ok (tok, rest2) := by
  rw [lexStringGo, h]

theorem lexStringGo_stepFail (endc c : Char) (rest : List Char) (outer : List StringSegment)
    (sbuf : List Char) (f : ℕ) {msg : List Char}
    (h : lexStringStep endc c rest outer sbuf = .fail msg) :
    lexStringGo endc (f + 1) (c :: rest) outer sbuf = .error msg := by
  rw [lexStringGo, h]

theorem lexStringStep_plain (endc c : Char) (rest : List Char) (outer : List StringSegment)
    (sbuf : List Char) (h1 : c ≠ endc) (h2 : c ≠ bslashCh) (h3 : c ≠ lbraceCh)
    (h4 : isCurrencyLead c = false) :
    lexStringStep endc c rest outer sbuf = .next rest outer (sbuf ++ [c]) := by
  rw [lexStringStep.eq_def]
  rw [if_neg h1, if_neg (by simp [h4]), if_neg h3, if_neg h2]

theorem lexStringStep_finish (endc : Char) (rest : List Char) (outer : List StringSegment)
    (sbuf : List Char) :
    lexStringStep endc endc rest outer sbuf = .finish (.String (flushStr outer sbuf)) rest := by
  rw [lexStringStep.eq_def, if_pos rfl]

theorem lexStringGo_plainRun (endc : Char) (cs : List Char) (outer : List StringSegment)
    (sbuf : List Char) (fuel : ℕ) (hf : cs.length < fuel)
    (h : ∀ c ∈ cs, c ≠ endc ∧ c ≠ bslashCh ∧ c ≠ lbraceCh ∧ isCurrencyLead c = false) :
    lexStringGo endc fuel cs outer sbuf = .ok (.String (flushStr outer (sbuf ++ cs)), []) := by
  induction cs generalizing fuel outer sbuf with
  | nil =>
    obtain ⟨f, rfl⟩ : ∃ f, fuel = f + 1 := ⟨fuel - 1, by omega⟩
    simp [lexStringGo]
  | cons c rest ih =>
    obtain ⟨f, rfl⟩ : ∃ f, fuel = f + 1 := ⟨fuel - 1, by omega⟩
    obtain ⟨h1, h2, h3, h4⟩ := h c (List.mem_cons_self c rest)
    rw [lexStringGo_stepNext endc c rest outer sbuf f
      (lexStringStep_plain endc c rest outer sbuf h1 h2 h3 h4)]
    rw [ih outer (sbuf ++ [c]) f (by simp at hf ⊢; omega)
      (fun d hd => h d (List.mem_cons_of_mem _ hd))]
    simp

theorem lexStringGo_trailingEscape (endc : Char) (cs : List Char) (outer : List StringSegment)
    (sbuf : List Char) (fuel : ℕ) (hf : cs.length + 1 < fuel) (he : endc ≠ bslashCh)
    (h : ∀ c ∈ cs, c ≠ endc ∧ c ≠ bslashCh ∧ c ≠ lbraceCh ∧ isCurrencyLead c = false) :
    lexStringGo endc fuel (cs ++ [bslashCh]) outer sbuf
      = .error "Unexpected end of file".toList := by
  induction cs generalizing fuel outer sbuf with
  | nil =>
    obtain ⟨f, rfl⟩ : ∃ f, fuel = f + 1 := ⟨fuel - 1, by omega⟩
    rw [List.nil_append]
    refine lexStringGo_stepFail endc bslashCh [] outer sbuf f ?_
    rw [lexStringStep.eq_def]
    rw [if_neg (fun hx => he hx.symm), if_neg (by decide), if_neg (by decide), if_pos rfl]
  | cons c rest ih =>
    obtain ⟨f, rfl⟩ : ∃ f, fuel = f + 1 := ⟨fuel - 1, by omega⟩
    obtain ⟨h1, h2, h3, h4⟩ := h c (List.mem_cons_self c rest)
    rw [List.cons_append]
    rw [lexStringGo_stepNext endc c (rest ++ [bslashCh]) outer sbuf f
      (lexStringStep_plain endc c (rest ++ [bslashCh]) outer sbuf h1 h2 h3 h4)]
    exact ih outer (sbuf ++ [c]) f (by simp at hf ⊢; omega)
      (fun d hd => h d (List.mem_cons_of_mem _ hd))

theorem innerTokenize_quote (fuel : ℕ) (rest : List Char) :
    innerTokenize fuel quoteCh rest = lexStringGo quoteCh fuel rest [] [] := rfl

theorem tokenize_quote_ok (rest : List Char) (tok : Token)
    (hlex : lexStringGo quoteCh (rest.length + 1) rest [] [] = .ok (tok, [])) :
    tokenize (quoteCh :: rest) = .ok [tok] := by
  rw [tokenize]
  simp only [List.length_cons]
  rw [tokenizeGo, innerTokenize_quote, hlex]
  rfl

theorem tokenize_quote_err (rest : List Char) (e : List Char)
    (hlex : lexStringGo quoteCh (rest.length + 1) rest [] [] = .error e) :
    tokenize (quoteCh :: rest) = .error e := by
  rw [tokenize]
  simp only [List.length_cons]
  rw [tokenizeGo, innerTokenize_quote, hlex]

/-- C1 counterexample: the input consisting of a double quote and the body abc
with no closing delimiter tokenizes successfully into one String token — the
scanner treats end of input as terminating the string body — so tokenize does
not fail with the unexpected-end-of-input error the claim requires. -/
theorem claim1_cex :
    tokenize (quoteCh :: ['a','b','c']) = .ok [.String [.String ['a','b','c']]]
    ∧ (Except.ok [Token.String [.String ['a','b','c']]] : Except (List Char) (List Token))
        ≠ .error "Unexpected end of file".toList :=
  ⟨rfl, fun h => nomatch h⟩

/-- C1 as amended: when the input ends while a string body of ordinary
characters (no delimiter, backslash, brace or currency lead) is being
scanned, tokenize succeeds, packaging the scanned text as the final String
token; only the escape case — a backslash as the last code point — fails, and
it fails with the unexpected-end-of-input lexical error. -/
theorem claim1_amended (cs : List Char)
    (h : ∀ c ∈ cs, c ≠ quoteCh ∧ c ≠ bslashCh ∧ c ≠ lbraceCh ∧ isCurrencyLead c = false) :
    tokenize (quoteCh :: cs) = .ok [.String (flushStr [] cs)]
    ∧ tokenize (quoteCh :: cs ++ [bslashCh]) = .error "Unexpected end of file".toList := by
  constructor
  · have hlex := lexStringGo_plainRun quoteCh cs [] [] (cs.length + 1) (by omega) h
    rw [List.nil_append] at hlex
    exact tokenize_quote_ok cs _ hlex
  · have hlex := lexStringGo_trailingEscape quoteCh cs [] [] ((cs ++ [bslashCh]).length + 1)
      (by simp) (by decide) h
    exact tokenize_quote_err (cs ++ [bslashCh]) _ hlex

/-- C1 witness: the amended statement at the body abc. -/
theorem claim1_witness :
    (∀ c ∈ (['a','b','c'] : List Char),
      c ≠ quoteCh ∧ c ≠ bslashCh ∧ c ≠ lbraceCh ∧ isCurrencyLead c = false)
    ∧ tokenize (quoteCh :: ['a','b','c']) = .ok [.String (flushStr [] ['a','b','c'])]
    ∧ tokenize (quoteCh :: ['a','b','c'] ++ [bslashCh])
        = .error "Unexpected end of file".toList := by
  refine ⟨by decide, ?_, ?_⟩
  · exact (claim1_amended ['a','b','c'] (by decide)).1
  · exact (claim1_amended ['a','b','c'] (by decide)).2

/-- C6: the first code point of a whitespace run always contributes weight 1
even when it is a newline, so the single-newline input yields Space 1, not the
Space 3 the claim states; a newline later in the run does contribute 3, as the
second and third inputs show. -/
theorem claim6_leadingNewline :
    tokenize ['\n'] = .ok [.Space 1]
    ∧ tokenize [' ', '\n'] = .ok [.Space 4]
    ∧ tokenize ['\n', '\n'] = .ok [.Space 4] := ⟨rfl, rfl, rfl⟩

theorem splitAtRBrace_append (xs rest : List Char) (h : rbraceCh ∉ xs) :
    splitAtRBrace (xs ++ rbraceCh :: rest) = (xs, some rest) := by
  induction xs with
  | nil => simp [splitAtRBrace]
  | cons c cr ih =>
    have hc : c ≠ rbraceCh := fun e => h (e ▸ List.mem_cons_self c cr)
    rw [List.cons_append, splitAtRBrace]
    rw [if_neg hc, ih (fun hm => h (List.mem_cons_of_mem _ hm))]

theorem splitOnChar_ne_nil (sep : Char) (xs : List Char) : splitOnChar sep xs ≠ [] := by
  cases xs with
  | nil => simp [splitOnChar]
  | cons c rest =>
    rw [splitOnChar]
    cases splitOnChar sep rest with
    | nil =>
      by_cases hc : c = sep
      · simp [hc]
      · simp [hc]
    | cons p ps =>
      by_cases hc : c = sep
      · simp [hc]
      · simp [hc]

theorem splitOnChar_not_mem (sep : Char) (xs : List Char) (h : sep ∉ xs) :
    splitOnChar sep xs = [xs] := by
  induction xs with
  | nil => rfl
  | cons c rest ih =>
    have hc : c ≠ sep := fun e => h (e ▸ List.mem_cons_self c rest)
    rw [splitOnChar, ih (fun hm => h (List.mem_cons_of_mem _ hm))]
    simp [hc]

theorem splitOnChar_append (sep : Char) (xs rest : List Char) (h : sep ∉ xs) :
    splitOnChar sep (xs ++ sep :: rest) = xs :: splitOnChar sep rest := by
  induction xs with
  | nil =>
    rw [List.nil_append, splitOnChar]
    rcases hs : splitOnChar sep rest with _ | ⟨p, ps⟩
    · exact absurd hs (splitOnChar_ne_nil sep rest)
    · simp
  | cons c cr ih =>
    have hc : c ≠ sep := fun e => h (e ▸ List.mem_cons_self c cr)
    rw [List.cons_append, splitOnChar, ih (fun hm => h (List.mem_cons_of_mem _ hm))]
    simp [hc]

theorem lexStringStep_escudo (endc : Char) (body : List Char) (d : Char) (r2 : List Char)
    (outer : List StringSegment) (sbuf : List Char) (he : endc ≠ lbraceCh)
    (hb : rbraceCh ∉ body) (hdol : '$' ∈ body) (hd : isCurrencyTrail d = false) :
    lexStringStep endc lbraceCh (body ++ rbraceCh :: d :: r2) outer sbuf
      = .next (d :: r2)
          (outer ++ [.Escudo ((splitOnChar '$' body).getD 0 []) ((splitOnChar '$' body).getD 1 [])])
          sbuf := by
  have hlead : isCurrencyLead lbraceCh = false := by decide
  rw [lexStringStep.eq_def]
  rw [if_neg (fun hx => he hx.symm), if_neg (by simp [hlead]), if_pos rfl]
  rw [splitAtRBrace_append body (d :: r2) hb]
  simp [hd, hdol]

theorem lexStringGo_escudoRun (body : List Char) (fuel : ℕ) (hf : 2 ≤ fuel)
    (hb : rbraceCh ∉ body) (hdol : '$' ∈ body) :
    lexStringGo quoteCh fuel (lbraceCh :: (body ++ [rbraceCh, quoteCh])) [] []
      = .ok (.String [.Escudo ((splitOnChar '$' body).getD 0 [])
          ((splitOnChar '$' body).getD 1 [])], []) := by
  obtain ⟨f, rfl⟩ : ∃ f, fuel = f + 1 + 1 := ⟨fuel - 2, by omega⟩
  rw [lexStringGo_stepNext quoteCh lbraceCh (body ++ [rbraceCh, quoteCh]) [] [] (f + 1)
    (lexStringStep_escudo quoteCh body quoteCh [] [] [] (by decide) hb hdol (by decide))]
  rw [lexStringGo_stepFinish quoteCh quoteCh [] _ [] f (lexStringStep_finish quoteCh [] _ [])]
  simp [flushStr]

theorem tokenize_escudo (body : List Char) (hb : rbraceCh ∉ body)
    (hdol : '$' ∈ body) :
    tokenize (quoteCh :: lbraceCh :: (body ++ [rbraceCh, quoteCh]))
      = .ok [.String [.Escudo ((splitOnChar '$' body).getD 0 [])
          ((splitOnChar '$' body).getD 1 [])]] := by
  refine tokenize_quote_ok _ _ ?_
  exact lexStringGo_escudoRun body _ (by simp only [List.length_cons, List.length_append]; omega)
    hb hdol

/-- C5 counterexample: the brace group with body a-dollar-b-dollar-c lexes to
the Escudo segment of a and b — the source splits on every dollar and keeps
only the first two pieces — whereas the claim requires the right part to be
everything after the first dollar, b-dollar-c. -/
theorem claim5_cex :
    tokenize (quoteCh :: lbraceCh :: (['a','$','b','$','c'] ++ [rbraceCh, quoteCh]))
      = .ok [.String [.Escudo ['a'] ['b']]]
    ∧ (['b'] : List Char) ≠ ['b','$','c'] := ⟨rfl, by decide⟩

/-- C5 as amended: a bare brace group containing a dollar is split on every
dollar and becomes the single segment Escudo of the first two pieces: the
text before the first dollar and the text between the first and second
dollars, any remainder being discarded; in particular the group a-dollar-b
yields Escudo of a and b. -/
theorem claim5_amended (l m r : List Char) (hl : '$' ∉ l) (hlb : rbraceCh ∉ l)
    (hm : '$' ∉ m) (hmb : rbraceCh ∉ m) (hrb : rbraceCh ∉ r) :
    tokenize (quoteCh :: lbraceCh :: ((l ++ '$' :: (m ++ '$' :: r)) ++ [rbraceCh, quoteCh]))
      = .ok [.String [.Escudo l m]]
    ∧ tokenize (quoteCh :: lbraceCh :: ((l ++ '$' :: m) ++ [rbraceCh, quoteCh]))
      = .ok [.String [.Escudo l m]] := by
  constructor
  · have hb : rbraceCh ∉ l ++ '$' :: (m ++ '$' :: r) := by
      intro hmem
      simp only [List.mem_append, List.mem_cons] at hmem
      rcases hmem with h | h | h | h | h
      · exact hlb h
      · exact absurd h (by decide)
      · exact hmb h
      · exact absurd h (by decide)
      · exact hrb h
    have hdol : '$' ∈ l ++ '$' :: (m ++ '$' :: r) :=
      List.mem_append_right l (List.mem_cons_self '$' _)
    have hs : splitOnChar '$' (l ++ '$' :: (m ++ '$' :: r))
        = l :: m :: splitOnChar '$' r := by
      rw [splitOnChar_append '$' l _ hl, splitOnChar_append '$' m r hm]
    have := tokenize_escudo (l ++ '$' :: (m ++ '$' :: r)) hb hdol
    rw [hs] at this
    simpa using this
  · have hb : rbraceCh ∉ l ++ '$' :: m := by
      intro hmem
      simp only [List.mem_append, List.mem_cons] at hmem
      rcases hmem with h | h | h
      · exact hlb h
      · exact absurd h (by decide)
      · exact hmb h
    have hdol : '$' ∈ l ++ '$' :: m := List.mem_append_right l (List.mem_cons_self '$' m)
    have hs : splitOnChar '$' (l ++ '$' :: m) = l :: [m] := by
      rw [splitOnChar_append '$' l m hl, splitOnChar_not_mem '$' m hm]
    have := tokenize_escudo (l ++ '$' :: m) hb hdol
    rw [hs] at this
    simpa using this

/-- C5 witness: the amended statement at the bodies x, y, z. -/
theorem claim5_witness :
    (('$' ∉ (['x'] : List Char)) ∧ rbraceCh ∉ (['x'] : List Char)
      ∧ ('$' ∉ (['y'] : List Char)) ∧ rbraceCh ∉ (['y'] : List Char)
      ∧ rbraceCh ∉ (['z'] : List Char))
    ∧ tokenize (quoteCh :: lbraceCh ::
        ((['x'] ++ '$' :: (['y'] ++ '$' :: ['z'])) ++ [rbraceCh, quoteCh]))
        = .ok [.String [.Escudo ['x'] ['y']]]
    ∧ tokenize (quoteCh :: lbraceCh :: ((['x'] ++ '$' :: ['y']) ++ [rbraceCh, quoteCh]))
        = .ok [.String [.Escudo ['x'] ['y']]] := by
  refine ⟨by decide, ?_, ?_⟩
  · exact (claim5_amended ['x'] ['y'] ['z'] (by decide) (by decide) (by decide) (by decide)
      (by decide)).1
  · exact (claim5_amended ['x'] ['y'] ['z'] (by decide) (by decide) (by decide) (by decide)
      (by decide)).2

theorem countChar_replicate (t : Char) (k cnt : ℕ) (h : cnt < 256) :
    countChar t cnt (List.replicate k t) = ((cnt + k) % 256, []) := by
  induction k generalizing cnt with
  | zero =>
    rw [List.replicate_zero, countChar]
    simp [Nat.mod_eq_of_lt h]
  | succ k ih =>
    rw [List.replicate_succ, countChar, if_pos rfl, ih ((cnt + 1) % 256) (by omega)]
    congr 1
    omega

theorem innerTokenize_eqCh (fuel : ℕ) (rest : List Char) :
    innerTokenize fuel '=' rest
      = .ok (.Equal (countChar '=' 1 rest).1, (countChar '=' 1 rest).2) := rfl

theorem innerTokenize_bangCh (fuel : ℕ) (rest : List Char) :
    innerTokenize fuel '!' rest
      = .ok (.Bang (countChar '!' 1 rest).1, (countChar '!' 1 rest).2) := rfl

theorem innerTokenize_questionCh (fuel : ℕ) (rest : List Char) :
    innerTokenize fuel '?' rest
      = .ok (.Question (countChar '?' 1 rest).1, (countChar '?' 1 rest).2) := rfl

theorem tokenize_eqRun (n : ℕ) (h : 1 ≤ n) :
    tokenize (List.replicate n '=') = .ok [.Equal (n % 256)] := by
  obtain ⟨k, rfl⟩ : ∃ k, n = k + 1 := ⟨n - 1, by omega⟩
  rw [tokenize, List.length_replicate, List.replicate_succ, tokenizeGo, innerTokenize_eqCh,
    countChar_replicate '=' k 1 (by omega)]
  have h1k : 1 + k = k + 1 := by omega
  rw [h1k]
  rfl

theorem tokenize_bangRun (n : ℕ) (h : 1 ≤ n) :
    tokenize (List.replicate n '!') = .ok [.Bang (n % 256)] := by
  obtain ⟨k, rfl⟩ : ∃ k, n = k + 1 := ⟨n - 1, by omega⟩
  rw [tokenize, List.length_replicate, List.replicate_succ, tokenizeGo, innerTokenize_bangCh,
    countChar_replicate '!' k 1 (by omega)]
  have h1k : 1 + k = k + 1 := by omega
  rw [h1k]
  rfl

theorem tokenize_questionRun (n : ℕ) (h : 1 ≤ n) :
    tokenize (List.replicate n '?') = .ok [.Question (n % 256)] := by
  obtain ⟨k, rfl⟩ : ∃ k, n = k + 1 := ⟨n - 1, by omega⟩
  rw [tokenize, List.length_replicate, List.replicate_succ, tokenizeGo, innerTokenize_questionCh,
    countChar_replicate '?' k 1 (by omega)]
  have h1k : 1 + k = k + 1 := by omega
  rw [h1k]
  rfl

/-- C7 counterexample: the count of a run-length token is a u8, so 256
consecutive equal signs tokenize to one Equal token carrying the wrapped
count 0, not the count 256 the claim requires for every n at least 1 (a
debug build would even abort on the overflow instead of wrapping). -/
theorem claim7_cex :
    tokenize (List.replicate 256 '=') = .ok [.Equal 0] ∧ (0 : ℕ) ≠ 256 := by
  have e := tokenize_eqRun 256 (by omega)
  norm_num at e
  exact ⟨e, by omega⟩

/-- C7 as amended: for every n between 1 and 255, tokenizing n consecutive
equal signs yields exactly one Equal token carrying the count n, and likewise
for bang with Bang and question mark with Question; beyond 255 the u8 count
wraps. -/
theorem claim7_amended (n : ℕ) (h1 : 1 ≤ n) (h2 : n ≤ 255) :
    tokenize (List.replicate n '=') = .ok [.Equal n]
    ∧ tokenize (List.replicate n '!') = .ok [.Bang n]
    ∧ tokenize (List.replicate n '?') = .ok [.Question n] := by
  have e := tokenize_eqRun n h1
  have b := tokenize_bangRun n h1
  have q := tokenize_questionRun n h1
  rw [Nat.mod_eq_of_lt (by omega)] at e b q
  exact ⟨e, b, q⟩

/-- C7 witness: the amended statement at three. -/
theorem claim7_witness :
    ((1 : ℕ) ≤ 3 ∧ (3 : ℕ) ≤ 255)
    ∧ tokenize (List.replicate 3 '=') = .ok [.Equal 3]
    ∧ tokenize (List.replicate 3 '!') = .ok [.Bang 3]
    ∧ tokenize (List.replicate 3 '?') = .ok [.Question 3] :=
  ⟨by decide, claim7_amended 3 (by decide) (by decide)⟩
